import Mathlib

set_option maxRecDepth 8192

/-
Verification of the repository-scanning core (src/utils/fileScanner.ts) of
the autofix-my-code project.  The scanners are embedded as pure Lean
functions over explicit state; host primitives (FileReader, fetch,
JSON.parse, the regex pattern detector) are modelled as oracle parameters
or small algebraic types, so every theorem quantifies over all of their
behaviours.
-/

namespace AutofixScan

/-! ### JavaScript string primitives, embedded over character lists -/

/-- Embeds JS `s.includes(pat)`: `pat` occurs as a contiguous substring of `s`. -/
def strIncludes (s pat : String) : Bool :=
  s.data.tails.any (fun t => pat.data.isPrefixOf t)

/-- Embeds JS `s.startsWith(pre)`. -/
def strStartsWith (s pre : String) : Bool :=
  pre.data.isPrefixOf s.data

/-- Embeds JS `s.endsWith(suf)`. -/
def strEndsWith (s suf : String) : Bool :=
  suf.data.isSuffixOf s.data

/-- Embeds JS `String.prototype.split` with a single-character separator:
splitting `[]` gives one empty piece, a separator character opens a new piece. -/
def splitChar (sep : Char) : List Char → List (List Char)
  | [] => [[]]
  | a :: rest =>
    match splitChar sep rest with
    | [] => [[a]]
    | h :: t => if a = sep then [] :: h :: t else (a :: h) :: t

/-- The '/'-separated path segments of a path string (JS `path.split('/')`). -/
def segmentsOf (path : String) : List String :=
  (splitChar '/' path.data).map String.mk

/-! ### Classification tables (pure data from the source) -/

/-- Extension-to-language table (`LANGUAGE_EXTENSIONS` in the source). -/
def LANGUAGE_EXTENSIONS : List (String × String) :=
  [(".ts", "TypeScript"), (".tsx", "TypeScript/React"), (".js", "JavaScript"),
   (".jsx", "JavaScript/React"), (".py", "Python"), (".java", "Java"),
   (".go", "Go"), (".rs", "Rust"), (".rb", "Ruby"), (".php", "PHP"),
   (".cs", "C#"), (".cpp", "C++"), (".c", "C"), (".swift", "Swift"),
   (".kt", "Kotlin"), (".vue", "Vue"), (".svelte", "Svelte"),
   (".html", "HTML"), (".css", "CSS"), (".scss", "SCSS"), (".json", "JSON"),
   (".yaml", "YAML"), (".yml", "YAML"), (".md", "Markdown"), (".sql", "SQL")]

/-- Dependency-name-to-framework table (`FRAMEWORK_INDICATORS` in the source). -/
def FRAMEWORK_INDICATORS : List (String × List String) :=
  [("React", ["react", "react-dom", "next", "gatsby"]),
   ("Vue", ["vue", "nuxt", "vuex"]),
   ("Angular", ["@angular/core"]),
   ("Svelte", ["svelte"]),
   ("Express", ["express"]),
   ("FastAPI", ["fastapi"]),
   ("Django", ["django"]),
   ("Flask", ["flask"]),
   ("Spring", ["spring-boot", "org.springframework"]),
   ("Rails", ["rails"]),
   ("Laravel", ["laravel"]),
   ("NestJS", ["@nestjs/core"]),
   ("Tailwind", ["tailwindcss"]),
   ("Bootstrap", ["bootstrap"])]

/-- Ignored directory names (`IGNORED_DIRS` in the source). -/
def IGNORED_DIRS : List String :=
  ["node_modules", ".git", "dist", "build", ".next", "__pycache__",
   "venv", ".venv", "target", "vendor", ".idea", ".vscode"]

/-- Ignored file names (`IGNORED_FILES` in the source). -/
def IGNORED_FILES : List String :=
  [".DS_Store", "package-lock.json", "yarn.lock", "pnpm-lock.yaml",
   ".env", ".env.local"]

/-- Content-size cap in bytes (`MAX_FILE_SIZE = 100 * 1024`). -/
def MAX_FILE_SIZE : Nat := 100 * 1024

/-- File-count cap (`MAX_FILES = 100`). -/
def MAX_FILES : Nat := 100

/-- Record-map lookup, embedding JS `table[key]` on the string-keyed tables. -/
def lookupTable (table : List (String × String)) (key : String) : Option String :=
  (table.find? (fun p => p.1 == key)).map (fun p => p.2)

/-! ### Summary data model (src/types/analysis.ts) -/

/-- One admitted file of the summary (`FileInfo` in src/types/analysis.ts). -/
structure FileInfo where
  path : String
  content : String
  type : String
  size : Nat
deriving DecidableEq, Repr

/-- The accumulator state of a scan; its fields are exactly the fields of the
returned `RepoSummary` (with `processedCount` returned as `fileCount`, and
`structure_` standing for the source field named `structure`). -/
structure ScanState where
  languages : List String
  frameworks : List String
  structure_ : List String
  files : List FileInfo
  errors : List String
  warnings : List String
  totalSize : Nat
  processedCount : Nat
deriving DecidableEq, Repr

/-- The `fileCount` field of the returned summary. -/
def ScanState.fileCount (st : ScanState) : Nat := st.processedCount

/-- The empty accumulator every scan starts from. -/
def initState : ScanState :=
  { languages := [], frameworks := [], structure_ := [], files := [],
    errors := [], warnings := [], totalSize := 0, processedCount := 0 }

/-- JS `Set.add` followed by `Array.from`: insertion-ordered list without
duplicates. -/
def addSet (s : List String) (x : String) : List String :=
  if s.contains x then s else s ++ [x]

/-! ### The JSON value model for `detectFrameworks`

`JSON.parse` is a host primitive; the scanners take a parse oracle
`String → Option JsonVal` (`none` models a parse exception).  Numbers are
modelled as integers: only JS truthiness of a dependency value is ever
observed. -/

inductive JsonVal where
  | str (s : String)
  | num (n : Int)
  | bool (b : Bool)
  | null
  | arr (elems : List JsonVal)
  | obj (fields : List (String × JsonVal))

/-- JS truthiness of a JSON value: empty string, zero, `false` and `null`
are falsy, everything else (including objects and arrays) is truthy. -/
def truthy : JsonVal → Bool
  | .str s => !(s == "")
  | .num n => !(n == 0)
  | .bool b => b
  | .null => false
  | .arr _ => true
  | .obj _ => true

/-- JS truthiness of a possibly-absent value (`undefined` is falsy). -/
def optTruthy : Option JsonVal → Bool
  | none => false
  | some v => truthy v

/-- Property access `v[key]` on a parsed JSON value: yields the field of an
object, `undefined` (`none`) otherwise.  Parsed objects carry unique keys. -/
def getField : JsonVal → String → Option JsonVal
  | .obj fields, key => (fields.find? (fun p => p.1 == key)).map (fun p => p.2)
  | _, _ => none

/-- Lookup in the spread-merge of `pkg.dependencies` and
`pkg.devDependencies` (the later spread, devDependencies, wins when the key
occurs in both; a non-object spread contributes no such named key). -/
def mergedDep (pkg : JsonVal) (key : String) : Option JsonVal :=
  match (getField pkg "devDependencies").bind (fun d => getField d key) with
  | some v => some v
  | none => (getField pkg "dependencies").bind (fun d => getField d key)

/-- Embeds `detectFrameworks`: parse the manifest (oracle); on failure leave
the set unchanged; otherwise add each framework label whose indicator list
has a member with a truthy value in the merged dependency mapping. -/
def detectFrameworks (parseJson : String → Option JsonVal)
    (content : String) (frameworks : List String) : List String :=
  match parseJson content with
  | none => frameworks
  | some pkg =>
    FRAMEWORK_INDICATORS.foldl
      (fun acc fw =>
        if fw.2.any (fun ind => optTruthy (mergedDep pkg ind)) then addSet acc fw.1
        else acc)
      frameworks

/-! ### Local scanner (`scanFiles`) -/

/-- A local input file: relative path, byte size, and the outcome of the
asynchronous whole-file text read (`Except msg content`; `.error msg` models
a FileReader failure carrying the error message used in the warning). -/
structure LocalFile where
  path : String
  size : Nat
  content : Except String String

/-- ASCII lowering of a string, character by character (the behaviour of JS
`toLowerCase` on the ASCII paths all claims use). -/
def strToLower (s : String) : String :=
  String.mk (s.data.map Char.toLower)

/-- Embeds `'.' + path.split('.').pop()?.toLowerCase()`: a dot followed by
the lowercased substring after the last dot (the whole path when it has no
dot).  `split` never yields an empty list, so the `pop` never fails. -/
def extOf (path : String) : String :=
  "." ++ strToLower (String.mk ((splitChar '.' path.data).getLastD []))

/-- Embeds `ext || 'unknown'`: the alternative is taken only when the
extension string is empty (falsy). -/
def typeOf (ext : String) : String :=
  if ext == "" then "unknown" else ext

/-- Embeds the language classification step: add the mapped label when the
extension is a key of `LANGUAGE_EXTENSIONS`. -/
def updateLanguages (languages : List String) (ext : String) : List String :=
  match lookupTable LANGUAGE_EXTENSIONS ext with
  | some lang => addSet languages lang
  | none => languages

/-- The ignored-directory test of the local scanner:
`path.includes('/' + dir + '/') || path.startsWith(dir + '/')`. -/
def ignoredDirHitLocal (path : String) : Bool :=
  IGNORED_DIRS.any (fun dir =>
    strIncludes path ("/" ++ dir ++ "/") || strStartsWith path (dir ++ "/"))

/-- The ignored-file test (shared by both scanners):
`IGNORED_FILES.some(f => path.endsWith(f))`. -/
def ignoredFileHit (path : String) : Bool :=
  IGNORED_FILES.any (fun f => strEndsWith path f)

/-- The advisory warning pushed when the file-count cap is reached. -/
def fileLimitWarning : String :=
  "Reached file limit (" ++ toString MAX_FILES ++ "). Some files were skipped."

/-- Embeds `(file.size / 1024).toFixed(1)`: the size in KiB with one decimal
digit; `size / 1024` is binary-exact, and `toFixed` rounds to the nearest
tenth with ties taken upward. -/
def fmtKB (size : Nat) : String :=
  let n := (size * 10 + 512) / 1024
  toString (n / 10) ++ "." ++ toString (n % 10)

/-- The warning pushed for a file whose size exceeds the content-size cap. -/
def largeFileWarning (path : String) (size : Nat) : String :=
  "Skipped large file: " ++ path ++ " (" ++ fmtKB size ++ "KB)"

/-- The warning pushed when a local file read fails. -/
def readFailWarning (path msg : String) : String :=
  "Failed to read " ++ path ++ ": " ++ msg

/-- The `for` loop of `scanFiles`, one constructor case per iteration.
`detectErr` is the pattern detector (`detectErrors` in the source, a pure
regex matcher treated as an oracle: no claim depends on its output), and
`parseJson` the JSON-parse oracle.  Reaching the file-count cap pushes one
warning and breaks; ignored files are skipped silently; an admitted file is
recorded in `structure_`/`totalSize`/`languages`, then its content is read
unless it exceeds the size cap, and on a successful read a `FileInfo` is
pushed and the processed counter incremented. -/
def scanLoop (detectErr : String → String → List String)
    (parseJson : String → Option JsonVal) :
    List LocalFile → ScanState → ScanState
  | [], st => st
  | file :: rest, st =>
    let path := file.path
    if ignoredDirHitLocal path then scanLoop detectErr parseJson rest st
    else if ignoredFileHit path then scanLoop detectErr parseJson rest st
    else if MAX_FILES ≤ st.processedCount then
      { st with warnings := st.warnings ++ [fileLimitWarning] }
    else
      let stA := { st with
        totalSize := st.totalSize + file.size,
        structure_ := st.structure_ ++ [path],
        languages := updateLanguages st.languages (extOf path) }
      if MAX_FILE_SIZE < file.size then
        scanLoop detectErr parseJson rest
          { stA with warnings := stA.warnings ++ [largeFileWarning path file.size] }
      else
        match file.content with
        | .error msg =>
          scanLoop detectErr parseJson rest
            { stA with warnings := stA.warnings ++ [readFailWarning path msg] }
        | .ok content =>
          scanLoop detectErr parseJson rest
            { stA with
              frameworks :=
                if strEndsWith path "package.json" then
                  detectFrameworks parseJson content stA.frameworks
                else stA.frameworks,
              errors := stA.errors ++ detectErr path content,
              files := stA.files ++
                [{ path := path, content := content,
                   type := typeOf (extOf path), size := file.size }],
              processedCount := stA.processedCount + 1 }

/-- Embeds `scanFiles`: run the loop from the empty accumulator.  The source
first sorts the list by path; every theorem below quantifies over all input
orders, hence covers the sorted one. -/
def scanFiles (detectErr : String → String → List String)
    (parseJson : String → Option JsonVal) (files : List LocalFile) : ScanState :=
  scanLoop detectErr parseJson files initState

/-! ### Remote scanner (`processGitHubTree`) -/

/-- One entry of the GitHub recursive tree listing: path, kind
(`"blob"` for a file, `"tree"` for a directory) and optional reported size. -/
structure TreeEntry where
  path : String
  type : String
  size : Option Nat
deriving DecidableEq, Repr

/-- Outcome of one raw-content fetch for a path: a 2xx response carrying the
text, a non-2xx response (`notOk`, no exception raised), or a thrown network
error (`threw`, lands in the `catch`). -/
inductive FetchOutcome where
  | ok (content : String)
  | notOk
  | threw
deriving DecidableEq, Repr

/-- The entries the remote scanner iterates: keep blobs, drop paths that
contain `dir ++ "/"` for an ignored directory or end with an ignored file
name, then take the first `MAX_FILES` of the filtered list. -/
def keptEntries (tree : List TreeEntry) : List TreeEntry :=
  ((((tree.filter (fun item => item.type == "blob")).filter
      (fun item => !(IGNORED_DIRS.any (fun dir => strIncludes item.path (dir ++ "/"))))).filter
      (fun item => !(IGNORED_FILES.any (fun f => strEndsWith item.path f)))).take MAX_FILES)

/-- Modelled from the spec: the alternative reading of claim C6 in which the
truncation to the file-count cap is applied to the unfiltered ordered tree
before the ignore filters; kept for comparison with `keptEntries`. -/
def keptEntriesSpecOrder (tree : List TreeEntry) : List TreeEntry :=
  (((tree.take MAX_FILES).filter (fun item => item.type == "blob")).filter
      (fun item => !(IGNORED_DIRS.any (fun dir => strIncludes item.path (dir ++ "/"))))).filter
      (fun item => !(IGNORED_FILES.any (fun f => strEndsWith item.path f)))

/-- The manifest file names whose content is always interesting
(`importantFiles` in the source). -/
def importantFiles : List String :=
  ["package.json", "requirements.txt", "Cargo.toml", "go.mod",
   ".eslintrc", "tsconfig.json"]

/-- The suffixes accepted by the source-extension regex of the remote
scanner; the anchored alternation matches exactly these path suffixes. -/
def sourceExtSuffixes : List String :=
  [".ts", ".tsx", ".js", ".jsx", ".py", ".go", ".rs", ".java"]

/-- Embeds `isImportantFile`: a manifest name suffix or a source-extension
suffix. -/
def isImportantFile (path : String) : Bool :=
  importantFiles.any (fun f => strEndsWith path f) ||
    sourceExtSuffixes.any (fun s => strEndsWith path s)

/-- Embeds the JS condition `file.size && file.size < MAX_FILE_SIZE`: an
absent or zero size is falsy, otherwise the strict size comparison decides. -/
def jsSizeTruthyLt (size : Option Nat) : Bool :=
  match size with
  | none => false
  | some n => if n == 0 then false else decide (n < MAX_FILE_SIZE)

/-- The warning pushed when a raw-content fetch throws. -/
def fetchFailWarning (path : String) : String :=
  "Failed to fetch " ++ path

/-- One iteration of the remote scanner's `for` loop over a kept entry:
record the path and reported size (0 when absent), classify the language,
and, when the entry is important, its size is truthy and below the cap, and
fewer than 50 contents have been fetched, consult the fetch oracle: a 2xx
response is processed and counted, a non-2xx response is silently skipped,
and a thrown fetch pushes the failure warning. -/
def remoteStep (detectErr : String → String → List String)
    (parseJson : String → Option JsonVal) (fetchFn : String → FetchOutcome)
    (st : ScanState) (file : TreeEntry) : ScanState :=
  let stA := { st with
    structure_ := st.structure_ ++ [file.path],
    totalSize := st.totalSize + file.size.getD 0,
    languages := updateLanguages st.languages (extOf file.path) }
  if isImportantFile file.path && jsSizeTruthyLt file.size &&
      decide (stA.processedCount < 50) then
    match fetchFn file.path with
    | .ok content =>
      { stA with
        frameworks :=
          if strEndsWith file.path "package.json" then
            detectFrameworks parseJson content stA.frameworks
          else stA.frameworks,
        errors := stA.errors ++ detectErr file.path content,
        files := stA.files ++
          [{ path := file.path, content := content,
             type := typeOf (extOf file.path), size := file.size.getD 0 }],
        processedCount := stA.processedCount + 1 }
    | .notOk => stA
    | .threw => { stA with warnings := stA.warnings ++ [fetchFailWarning file.path] }
  else stA

/-- Embeds `processGitHubTree`: fold the per-entry step over the kept
entries, starting from the empty accumulator.  The raw-content URL is a
fixed template over the scan's owner/repo, so the fetch oracle is keyed by
the entry path. -/
def processGitHubTree (detectErr : String → String → List String)
    (parseJson : String → Option JsonVal) (fetchFn : String → FetchOutcome)
    (tree : List TreeEntry) : ScanState :=
  (keptEntries tree).foldl (remoteStep detectErr parseJson fetchFn) initState

/-! ### Concrete oracles and inputs used by counterexamples and witnesses -/

/-- Pattern-detector oracle that reports nothing. -/
def noDetect : String → String → List String := fun _ _ => []

/-- Parse oracle modelling a JSON.parse failure on every input. -/
def noParse : String → Option JsonVal := fun _ => none

/-- Fetch oracle whose every response is 2xx with the given body. -/
def fetchAllOk (body : String) : String → FetchOutcome := fun _ => FetchOutcome.ok body

/-- Fetch oracle whose every response is non-2xx (no exception). -/
def fetchAllNotOk : String → FetchOutcome := fun _ => FetchOutcome.notOk

/-- Fetch oracle whose every request throws a network error. -/
def fetchAllThrew : String → FetchOutcome := fun _ => FetchOutcome.threw

/-- A file whose extension is upper-case, exercising the type classifier. -/
def cexFileC2 : LocalFile := { path := "main.TS", size := 5, content := Except.ok "x" }

/-- A file literally named like an ignored directory: its single path
segment equals "node_modules" yet no trailing slash occurs, so neither
ignored-directory test fires. -/
def cexFileC3 : LocalFile := { path := "node_modules", size := 3, content := Except.ok "x" }

/-- 101 non-ignored files, each one byte over the content-size cap: none of
them is ever content-processed, so the processed counter never reaches the
file-count cap. -/
def bigInput : List LocalFile :=
  List.replicate 101 { path := "a", size := MAX_FILE_SIZE + 1, content := Except.ok "" }

/-- An accumulator that has already content-processed `MAX_FILES` files. -/
def stAtCap : ScanState := { initState with processedCount := MAX_FILES }

/-- A tree of one ignored blob followed by 100 kept blobs: filtering first
leaves 100 entries, truncating the unfiltered list first would leave 99. -/
def cexTreeC6 : List TreeEntry :=
  { path := "node_modules/x.md", type := "blob", size := some 1 } ::
    List.replicate 100 { path := "a.md", type := "blob", size := some 1 }

/-- An important source file whose reported size is 0: below the cap, yet
falsy in the JS fetch condition. -/
def entrySizeZero : TreeEntry := { path := "a.ts", type := "blob", size := some 0 }

/-- An important source file entry that passes every fetch condition. -/
def selEntry : TreeEntry := { path := "a.ts", type := "blob", size := some 5 }

/-- A manifest whose dependencies carry the key "react" with an empty-string
value: the key is present but its value is falsy. -/
def cexPkgC9 : JsonVal :=
  JsonVal.obj [("dependencies", JsonVal.obj [("react", JsonVal.str "")])]

/-- Parse oracle returning the falsy-react manifest for every input. -/
def parseCexC9 : String → Option JsonVal := fun _ => some cexPkgC9

/-- The spec's scenario manifest: dependencies with react pinned to a
non-empty version string. -/
def reactPkg : JsonVal :=
  JsonVal.obj [("dependencies", JsonVal.obj [("react", JsonVal.str "^18.0.0")])]

/-- Parse oracle returning the react scenario manifest for every input. -/
def parseReact : String → Option JsonVal := fun _ => some reactPkg

/-! ### Invariant predicates used by the proofs -/

/-- A path that passed both ignore tests of the local scanner. -/
def PathOKLocal (p : String) : Prop :=
  ignoredDirHitLocal p = false ∧ ignoredFileHit p = false

/-- A path that passed both ignore tests of the remote scanner. -/
def PathOKRemote (p : String) : Prop :=
  (IGNORED_DIRS.any (fun dir => strIncludes p (dir ++ "/"))) = false ∧
    ignoredFileHit p = false

/-- The inductive invariant of the local scan loop. -/
def LocalInv (st : ScanState) : Prop :=
  st.processedCount = st.files.length ∧
  st.processedCount ≤ MAX_FILES ∧
  (∀ p ∈ st.structure_, PathOKLocal p) ∧
  (∀ fi ∈ st.files,
    PathOKLocal fi.path ∧ fi.type = extOf fi.path ∧ fi.size ≤ MAX_FILE_SIZE)

/-- The inductive invariant of the remote scan fold. -/
def RemoteInv (st : ScanState) : Prop :=
  st.processedCount = st.files.length ∧
  st.processedCount ≤ 50 ∧
  (∀ p ∈ st.structure_, PathOKRemote p) ∧
  (∀ fi ∈ st.files, PathOKRemote fi.path ∧ fi.type = extOf fi.path)

/-! ## Theorems -/

/-! ### String and list helper lemmas -/

theorem strData_append (a b : String) : (a ++ b).data = a.data ++ b.data := by
  cases a
  cases b
  rfl

theorem strIncludes_iff (s pat : String) :
    strIncludes s pat = true ↔ pat.data <:+: s.data := by
  unfold strIncludes
  rw [List.any_eq_true]
  constructor
  · rintro ⟨t, ht, hp⟩
    rw [List.mem_tails] at ht
    rw [List.isPrefixOf_iff_prefix] at hp
    exact List.infix_iff_prefix_suffix.mpr ⟨t, hp, ht⟩
  · intro h
    obtain ⟨t, hp, ht⟩ := List.infix_iff_prefix_suffix.mp h
    exact ⟨t, (List.mem_tails _ _).mpr ht, List.isPrefixOf_iff_prefix.mpr hp⟩

theorem strStartsWith_iff (s pre : String) :
    strStartsWith s pre = true ↔ pre.data <+: s.data := by
  unfold strStartsWith
  exact List.isPrefixOf_iff_prefix

theorem splitChar_ne_nil (sep : Char) (l : List Char) : splitChar sep l ≠ [] := by
  cases l with
  | nil => simp [splitChar]
  | cons a rest =>
    simp only [splitChar]
    split
    · simp
    · split <;> simp

theorem splitChar_head_tail (sep : Char) (l : List Char) :
    ∀ (h : List Char) (t : List (List Char)),
      splitChar sep l = h :: t → t ≠ [] →
      ∃ suf, l = h ++ sep :: suf ∧ splitChar sep suf = t := by
  induction l with
  | nil =>
    intro h t heq hne
    simp only [splitChar] at heq
    injection heq with e1 e2
    exact absurd e2.symm hne
  | cons a rest ih =>
    intro h t heq hne
    simp only [splitChar] at heq
    cases hr : splitChar sep rest with
    | nil => exact absurd hr (splitChar_ne_nil sep rest)
    | cons h' t' =>
      rw [hr] at heq
      dsimp only at heq
      by_cases ha : a = sep
      · rw [if_pos ha] at heq
        injection heq with e1 e2
        subst e1
        refine ⟨rest, ?_, ?_⟩
        · rw [ha]
          simp
        · rw [hr, e2]
      · rw [if_neg ha] at heq
        injection heq with e1 e2
        obtain ⟨suf, hsuf, hsplit⟩ := ih h' t' hr (e2 ▸ hne)
        refine ⟨suf, ?_, ?_⟩
        · rw [← e1, hsuf]
          simp
        · rw [hsplit, e2]

theorem seg_of_mem_dropLast (sep : Char) :
    ∀ (n : Nat) (l d : List Char), l.length ≤ n →
      d ∈ (splitChar sep l).dropLast →
      (d ++ [sep]) <+: l ∨ ((sep :: (d ++ [sep])) <:+: l) := by
  intro n
  induction n with
  | zero =>
    intro l d hl hd
    have hnil : l = [] := List.length_eq_zero.mp (Nat.le_zero.mp hl)
    subst hnil
    simp [splitChar] at hd
  | succ n ih =>
    intro l d hl hd
    cases l with
    | nil => simp [splitChar] at hd
    | cons a rest =>
      simp only [splitChar] at hd
      cases hr : splitChar sep rest with
      | nil => exact absurd hr (splitChar_ne_nil sep rest)
      | cons h t =>
        rw [hr] at hd
        dsimp only at hd
        by_cases ha : a = sep
        · rw [if_pos ha] at hd
          rw [List.dropLast_cons₂] at hd
          rcases List.mem_cons.mp hd with rfl | hd'
          · left
            exact ⟨rest, by rw [ha]; simp⟩
          · rw [← hr] at hd'
            have hrl : rest.length ≤ n := by simp at hl; omega
            rcases ih rest d hrl hd' with hpre | hinf
            · right
              obtain ⟨t2, ht2⟩ := hpre
              exact ⟨[], t2, by rw [ha]; simp [ht2]⟩
            · right
              obtain ⟨s1, t1, hst⟩ := hinf
              exact ⟨a :: s1, t1, by simp [hst]⟩
        · rw [if_neg ha] at hd
          cases t with
          | nil =>
            rw [List.dropLast_single] at hd
            simp at hd
          | cons t1 t2 =>
            rw [List.dropLast_cons₂] at hd
            obtain ⟨suf, hrest, hsplit⟩ :=
              splitChar_head_tail sep rest h (t1 :: t2) hr (by simp)
            rcases List.mem_cons.mp hd with rfl | hd'
            · left
              exact ⟨suf, by rw [hrest]; simp⟩
            · have hd2 : d ∈ (splitChar sep suf).dropLast := by
                rw [hsplit]; exact hd'
              have hsl : suf.length ≤ n := by
                subst hrest; simp at hl; omega
              rcases ih suf d hsl hd2 with hpre | hinf
              · right
                obtain ⟨t3, ht3⟩ := hpre
                exact ⟨a :: h, t3, by rw [hrest]; simp [← ht3]⟩
              · right
                obtain ⟨s1, t3, hst⟩ := hinf
                exact ⟨a :: h ++ sep :: s1, t3, by rw [hrest]; simp [hst]⟩

theorem slash_data : ("/" : String).data = ['/'] := rfl

theorem mem_addSet (s : List String) (a x : String) :
    x ∈ addSet s a ↔ x ∈ s ∨ x = a := by
  unfold addSet
  by_cases hc : s.contains a
  · rw [if_pos hc]
    simp only [List.contains_iff_exists_mem_beq, beq_iff_eq] at hc
    obtain ⟨y, hy, rfl⟩ := hc
    constructor
    · exact Or.inl
    · rintro (hx | rfl)
      · exact hx
      · exact hy
  · rw [if_neg hc]
    simp

theorem pathOKLocal_no_dir_segment (p : String) (hp : PathOKLocal p) :
    ∀ d ∈ IGNORED_DIRS, d ∉ (segmentsOf p).dropLast := by
  obtain ⟨hdir, _⟩ := hp
  intro d hd hmem
  unfold segmentsOf at hmem
  rw [← List.map_dropLast] at hmem
  obtain ⟨d', hd', hmk⟩ := List.mem_map.mp hmem
  have hdd : d.data = d' := by rw [← hmk]
  have hseg := seg_of_mem_dropLast '/' p.data.length p.data d.data (Nat.le_refl _)
    (by rw [hdd]; exact hd')
  unfold ignoredDirHitLocal at hdir
  have hone := List.any_eq_false.mp hdir d hd
  rw [Bool.or_eq_true, not_or] at hone
  obtain ⟨hincl, hsw⟩ := hone
  have hdat : (d ++ "/" : String).data = d.data ++ ['/'] := by
    simp [strData_append, slash_data]
  rcases hseg with hpre | hinf
  · apply hsw
    rw [strStartsWith_iff, hdat]
    exact hpre
  · apply hincl
    rw [strIncludes_iff]
    have hdat2 : ("/" ++ d ++ "/" : String).data = '/' :: (d.data ++ ['/']) := by
      simp [strData_append, slash_data]
    rw [hdat2]
    exact hinf

theorem pathOKRemote_no_dir_segment (p : String) (hp : PathOKRemote p) :
    ∀ d ∈ IGNORED_DIRS, d ∉ (segmentsOf p).dropLast := by
  obtain ⟨hdir, _⟩ := hp
  intro d hd hmem
  unfold segmentsOf at hmem
  rw [← List.map_dropLast] at hmem
  obtain ⟨d', hd', hmk⟩ := List.mem_map.mp hmem
  have hdd : d.data = d' := by rw [← hmk]
  have hseg := seg_of_mem_dropLast '/' p.data.length p.data d.data (Nat.le_refl _)
    (by rw [hdd]; exact hd')
  have hone := List.any_eq_false.mp hdir d hd
  have hinc : (d ++ "/" : String).data = d.data ++ ['/'] := by
    simp [strData_append, slash_data]
  apply hone
  rw [strIncludes_iff, hinc]
  rcases hseg with hpre | hinf
  · obtain ⟨t2, ht2⟩ := hpre
    exact ⟨[], t2, by simp [ht2]⟩
  · have hsub : (d.data ++ ['/']) <:+: ('/' :: (d.data ++ ['/'])) := ⟨['/'], [], by simp⟩
    exact hsub.trans hinf

theorem ignoredFileHit_false_forall (p : String) (hf : ignoredFileHit p = false) :
    ∀ f ∈ IGNORED_FILES, strEndsWith p f = false := by
  intro f hfm
  have hn := List.any_eq_false.mp hf f hfm
  simpa using hn

/-! ### Branch equations of the local scan loop -/

theorem scanLoop_nil (dE : String → String → List String)
    (pJ : String → Option JsonVal) (st : ScanState) :
    scanLoop dE pJ [] st = st := rfl

theorem scanLoop_cons_ignoredDir (dE : String → String → List String)
    (pJ : String → Option JsonVal) (f : LocalFile) (rest : List LocalFile)
    (st : ScanState) (h1 : ignoredDirHitLocal f.path = true) :
    scanLoop dE pJ (f :: rest) st = scanLoop dE pJ rest st := by
  simp [scanLoop, h1]

theorem scanLoop_cons_ignoredFile (dE : String → String → List String)
    (pJ : String → Option JsonVal) (f : LocalFile) (rest : List LocalFile)
    (st : ScanState) (h1 : ignoredDirHitLocal f.path = false)
    (h2 : ignoredFileHit f.path = true) :
    scanLoop dE pJ (f :: rest) st = scanLoop dE pJ rest st := by
  simp [scanLoop, h1, h2]

theorem scanLoop_cons_limit (dE : String → String → List String)
    (pJ : String → Option JsonVal) (f : LocalFile) (rest : List LocalFile)
    (st : ScanState) (h1 : ignoredDirHitLocal f.path = false)
    (h2 : ignoredFileHit f.path = false) (h3 : MAX_FILES ≤ st.processedCount) :
    scanLoop dE pJ (f :: rest) st =
      { st with warnings := st.warnings ++ [fileLimitWarning] } := by
  simp [scanLoop, h1, h2, h3]

theorem scanLoop_cons_large (dE : String → String → List String)
    (pJ : String → Option JsonVal) (f : LocalFile) (rest : List LocalFile)
    (st : ScanState) (h1 : ignoredDirHitLocal f.path = false)
    (h2 : ignoredFileHit f.path = false) (h3 : ¬ MAX_FILES ≤ st.processedCount)
    (h4 : MAX_FILE_SIZE < f.size) :
    scanLoop dE pJ (f :: rest) st = scanLoop dE pJ rest
      { st with
        totalSize := st.totalSize + f.size,
        structure_ := st.structure_ ++ [f.path],
        languages := updateLanguages st.languages (extOf f.path),
        warnings := st.warnings ++ [largeFileWarning f.path f.size] } := by
  simp [scanLoop, h1, h2, h3, h4]

theorem scanLoop_cons_readfail (dE : String → String → List String)
    (pJ : String → Option JsonVal) (f : LocalFile) (rest : List LocalFile)
    (st : ScanState) (msg : String) (h1 : ignoredDirHitLocal f.path = false)
    (h2 : ignoredFileHit f.path = false) (h3 : ¬ MAX_FILES ≤ st.processedCount)
    (h4 : ¬ MAX_FILE_SIZE < f.size) (h5 : f.content = Except.error msg) :
    scanLoop dE pJ (f :: rest) st = scanLoop dE pJ rest
      { st with
        totalSize := st.totalSize + f.size,
        structure_ := st.structure_ ++ [f.path],
        languages := updateLanguages st.languages (extOf f.path),
        warnings := st.warnings ++ [readFailWarning f.path msg] } := by
  simp [scanLoop, h1, h2, h3, h4, h5]

theorem scanLoop_cons_ok (dE : String → String → List String)
    (pJ : String → Option JsonVal) (f : LocalFile) (rest : List LocalFile)
    (st : ScanState) (c : String) (h1 : ignoredDirHitLocal f.path = false)
    (h2 : ignoredFileHit f.path = false) (h3 : ¬ MAX_FILES ≤ st.processedCount)
    (h4 : ¬ MAX_FILE_SIZE < f.size) (h5 : f.content = Except.ok c) :
    scanLoop dE pJ (f :: rest) st = scanLoop dE pJ rest
      { st with
        totalSize := st.totalSize + f.size,
        structure_ := st.structure_ ++ [f.path],
        languages := updateLanguages st.languages (extOf f.path),
        frameworks :=
          if strEndsWith f.path "package.json" then
            detectFrameworks pJ c st.frameworks
          else st.frameworks,
        errors := st.errors ++ dE f.path c,
        files := st.files ++
          [{ path := f.path, content := c,
             type := typeOf (extOf f.path), size := f.size }],
        processedCount := st.processedCount + 1 } := by
  simp [scanLoop, h1, h2, h3, h4, h5]

/-! ### Branch equations of the remote step -/

theorem remoteStep_noFetch (dE : String → String → List String)
    (pJ : String → Option JsonVal) (fF : String → FetchOutcome)
    (st : ScanState) (e : TreeEntry)
    (h : (isImportantFile e.path && jsSizeTruthyLt e.size &&
          decide (st.processedCount < 50)) = false) :
    remoteStep dE pJ fF st e =
      { st with
        structure_ := st.structure_ ++ [e.path],
        totalSize := st.totalSize + e.size.getD 0,
        languages := updateLanguages st.languages (extOf e.path) } := by
  simp only [remoteStep]
  rw [if_neg]
  simp [h]

theorem remoteStep_fetch_ok (dE : String → String → List String)
    (pJ : String → Option JsonVal) (fF : String → FetchOutcome)
    (st : ScanState) (e : TreeEntry) (c : String)
    (h : (isImportantFile e.path && jsSizeTruthyLt e.size &&
          decide (st.processedCount < 50)) = true)
    (hf : fF e.path = FetchOutcome.ok c) :
    remoteStep dE pJ fF st e =
      { st with
        structure_ := st.structure_ ++ [e.path],
        totalSize := st.totalSize + e.size.getD 0,
        languages := updateLanguages st.languages (extOf e.path),
        frameworks :=
          if strEndsWith e.path "package.json" then
            detectFrameworks pJ c st.frameworks
          else st.frameworks,
        errors := st.errors ++ dE e.path c,
        files := st.files ++
          [{ path := e.path, content := c,
             type := typeOf (extOf e.path), size := e.size.getD 0 }],
        processedCount := st.processedCount + 1 } := by
  simp [remoteStep, h, hf]

theorem remoteStep_fetch_notOk (dE : String → String → List String)
    (pJ : String → Option JsonVal) (fF : String → FetchOutcome)
    (st : ScanState) (e : TreeEntry)
    (h : (isImportantFile e.path && jsSizeTruthyLt e.size &&
          decide (st.processedCount < 50)) = true)
    (hf : fF e.path = FetchOutcome.notOk) :
    remoteStep dE pJ fF st e =
      { st with
        structure_ := st.structure_ ++ [e.path],
        totalSize := st.totalSize + e.size.getD 0,
        languages := updateLanguages st.languages (extOf e.path) } := by
  simp [remoteStep, h, hf]

theorem remoteStep_fetch_threw (dE : String → String → List String)
    (pJ : String → Option JsonVal) (fF : String → FetchOutcome)
    (st : ScanState) (e : TreeEntry)
    (h : (isImportantFile e.path && jsSizeTruthyLt e.size &&
          decide (st.processedCount < 50)) = true)
    (hf : fF e.path = FetchOutcome.threw) :
    remoteStep dE pJ fF st e =
      { st with
        structure_ := st.structure_ ++ [e.path],
        totalSize := st.totalSize + e.size.getD 0,
        languages := updateLanguages st.languages (extOf e.path),
        warnings := st.warnings ++ [fetchFailWarning e.path] } := by
  simp [remoteStep, h, hf]

/-! ### Facts about the derived extension string -/

theorem extOf_data (p : String) :
    (extOf p).data =
      '.' :: ((splitChar '.' p.data).getLastD []).map Char.toLower := by
  unfold extOf strToLower
  rw [strData_append]
  rfl

theorem extOf_ne_empty (p : String) : extOf p ≠ "" := by
  intro h
  have hd := congrArg String.data h
  rw [extOf_data] at hd
  injection hd

theorem extOf_ne_unknown (p : String) : extOf p ≠ "unknown" := by
  intro h
  have hd := congrArg String.data h
  rw [extOf_data] at hd
  injection hd with h1 h2
  exact absurd h1 (by decide)

theorem typeOf_extOf (p : String) : typeOf (extOf p) = extOf p := by
  have h := extOf_ne_empty p
  simp [typeOf, h]

/-! ### Invariant preservation -/

theorem scanLoop_preserves_inv (dE : String → String → List String)
    (pJ : String → Option JsonVal) :
    ∀ (l : List LocalFile) (st : ScanState),
      LocalInv st → LocalInv (scanLoop dE pJ l st) := by
  intro l
  induction l with
  | nil =>
    intro st h
    rw [scanLoop_nil]
    exact h
  | cons f rest ih =>
    intro st h
    cases h1 : ignoredDirHitLocal f.path with
    | true =>
      rw [scanLoop_cons_ignoredDir dE pJ f rest st h1]
      exact ih st h
    | false =>
      cases h2 : ignoredFileHit f.path with
      | true =>
        rw [scanLoop_cons_ignoredFile dE pJ f rest st h1 h2]
        exact ih st h
      | false =>
        by_cases h3 : MAX_FILES ≤ st.processedCount
        · rw [scanLoop_cons_limit dE pJ f rest st h1 h2 h3]
          obtain ⟨hc, hm, hs, hf⟩ := h
          exact ⟨hc, hm, hs, hf⟩
        · by_cases h4 : MAX_FILE_SIZE < f.size
          · rw [scanLoop_cons_large dE pJ f rest st h1 h2 h3 h4]
            apply ih
            obtain ⟨hc, hm, hs, hf⟩ := h
            refine ⟨hc, hm, ?_, hf⟩
            intro p hp
            rcases List.mem_append.mp hp with hp | hp
            · exact hs p hp
            · rcases List.mem_singleton.mp hp with rfl
              exact ⟨h1, h2⟩
          · cases h5 : f.content with
            | error msg =>
              rw [scanLoop_cons_readfail dE pJ f rest st msg h1 h2 h3 h4 h5]
              apply ih
              obtain ⟨hc, hm, hs, hf⟩ := h
              refine ⟨hc, hm, ?_, hf⟩
              intro p hp
              rcases List.mem_append.mp hp with hp | hp
              · exact hs p hp
              · rcases List.mem_singleton.mp hp with rfl
                exact ⟨h1, h2⟩
            | ok c =>
              rw [scanLoop_cons_ok dE pJ f rest st c h1 h2 h3 h4 h5]
              apply ih
              obtain ⟨hc, hm, hs, hf⟩ := h
              refine ⟨?_, ?_, ?_, ?_⟩
              · simp [hc]
              · simp only []
                omega
              · intro p hp
                rcases List.mem_append.mp hp with hp | hp
                · exact hs p hp
                · rcases List.mem_singleton.mp hp with rfl
                  exact ⟨h1, h2⟩
              · intro fi hfi
                rcases List.mem_append.mp hfi with hfi | hfi
                · exact hf fi hfi
                · rcases List.mem_singleton.mp hfi with rfl
                  exact ⟨⟨h1, h2⟩, typeOf_extOf f.path, Nat.le_of_not_lt h4⟩

theorem remoteStep_inv (dE : String → String → List String)
    (pJ : String → Option JsonVal) (fF : String → FetchOutcome)
    (st : ScanState) (e : TreeEntry) (he : PathOKRemote e.path)
    (h : RemoteInv st) : RemoteInv (remoteStep dE pJ fF st e) := by
  obtain ⟨h1, h2, h3, h4⟩ := h
  by_cases hc : (isImportantFile e.path && jsSizeTruthyLt e.size &&
      decide (st.processedCount < 50)) = true
  · have hcnt : st.processedCount < 50 := by
      have := hc
      simp only [Bool.and_eq_true, decide_eq_true_eq] at this
      exact this.2
    cases hf : fF e.path with
    | ok c =>
      rw [remoteStep_fetch_ok dE pJ fF st e c hc hf]
      refine ⟨by simp [h1], by simp only []; omega, ?_, ?_⟩
      · intro p hp
        rcases List.mem_append.mp hp with hp | hp
        · exact h3 p hp
        · rcases List.mem_singleton.mp hp with rfl
          exact he
      · intro fi hfi
        rcases List.mem_append.mp hfi with hfi | hfi
        · exact h4 fi hfi
        · rcases List.mem_singleton.mp hfi with rfl
          exact ⟨he, typeOf_extOf e.path⟩
    | notOk =>
      rw [remoteStep_fetch_notOk dE pJ fF st e hc hf]
      refine ⟨h1, h2, ?_, h4⟩
      intro p hp
      rcases List.mem_append.mp hp with hp | hp
      · exact h3 p hp
      · rcases List.mem_singleton.mp hp with rfl
        exact he
    | threw =>
      rw [remoteStep_fetch_threw dE pJ fF st e hc hf]
      refine ⟨h1, h2, ?_, h4⟩
      intro p hp
      rcases List.mem_append.mp hp with hp | hp
      · exact h3 p hp
      · rcases List.mem_singleton.mp hp with rfl
        exact he
  · rw [Bool.not_eq_true] at hc
    rw [remoteStep_noFetch dE pJ fF st e hc]
    refine ⟨h1, h2, ?_, h4⟩
    intro p hp
    rcases List.mem_append.mp hp with hp | hp
    · exact h3 p hp
    · rcases List.mem_singleton.mp hp with rfl
      exact he

theorem foldl_remote_inv (dE : String → String → List String)
    (pJ : String → Option JsonVal) (fF : String → FetchOutcome) :
    ∀ (l : List TreeEntry) (st : ScanState),
      (∀ e ∈ l, PathOKRemote e.path) → RemoteInv st →
      RemoteInv (l.foldl (remoteStep dE pJ fF) st) := by
  intro l
  induction l with
  | nil =>
    intro st _ h
    exact h
  | cons e rest ih =>
    intro st hall h
    rw [List.foldl_cons]
    exact ih _ (fun x hx => hall x (List.mem_cons_of_mem e hx))
      (remoteStep_inv dE pJ fF st e (hall e (List.mem_cons_self e rest)) h)

theorem keptEntries_pathOK (tree : List TreeEntry) :
    ∀ e ∈ keptEntries tree, PathOKRemote e.path := by
  intro e he
  unfold keptEntries at he
  have he2 := List.take_subset MAX_FILES _ he
  obtain ⟨he3, hcond3⟩ := List.mem_filter.mp he2
  obtain ⟨he4, hcond2⟩ := List.mem_filter.mp he3
  constructor
  · simpa using hcond2
  · unfold ignoredFileHit
    simpa using hcond3

theorem remoteStep_structure (dE : String → String → List String)
    (pJ : String → Option JsonVal) (fF : String → FetchOutcome)
    (st : ScanState) (e : TreeEntry) :
    (remoteStep dE pJ fF st e).structure_ = st.structure_ ++ [e.path] := by
  by_cases hc : (isImportantFile e.path && jsSizeTruthyLt e.size &&
      decide (st.processedCount < 50)) = true
  · cases hf : fF e.path with
    | ok c => rw [remoteStep_fetch_ok dE pJ fF st e c hc hf]
    | notOk => rw [remoteStep_fetch_notOk dE pJ fF st e hc hf]
    | threw => rw [remoteStep_fetch_threw dE pJ fF st e hc hf]
  · rw [Bool.not_eq_true] at hc
    rw [remoteStep_noFetch dE pJ fF st e hc]

theorem foldl_remote_structure (dE : String → String → List String)
    (pJ : String → Option JsonVal) (fF : String → FetchOutcome) :
    ∀ (l : List TreeEntry) (st : ScanState),
      (l.foldl (remoteStep dE pJ fF) st).structure_ =
        st.structure_ ++ l.map (fun e => e.path) := by
  intro l
  induction l with
  | nil =>
    intro st
    simp
  | cons e rest ih =>
    intro st
    rw [List.foldl_cons, ih, remoteStep_structure]
    simp

theorem remoteStep_warnings (dE : String → String → List String)
    (pJ : String → Option JsonVal) (fF : String → FetchOutcome)
    (st : ScanState) (e : TreeEntry) :
    ∀ w ∈ (remoteStep dE pJ fF st e).warnings,
      w ∈ st.warnings ∨
        (w = fetchFailWarning e.path ∧ fF e.path = FetchOutcome.threw) := by
  intro w hw
  by_cases hc : (isImportantFile e.path && jsSizeTruthyLt e.size &&
      decide (st.processedCount < 50)) = true
  · cases hf : fF e.path with
    | ok c =>
      rw [remoteStep_fetch_ok dE pJ fF st e c hc hf] at hw
      exact Or.inl hw
    | notOk =>
      rw [remoteStep_fetch_notOk dE pJ fF st e hc hf] at hw
      exact Or.inl hw
    | threw =>
      rw [remoteStep_fetch_threw dE pJ fF st e hc hf] at hw
      rcases List.mem_append.mp hw with hw | hw
      · exact Or.inl hw
      · rcases List.mem_singleton.mp hw with rfl
        exact Or.inr ⟨rfl, rfl⟩
  · rw [Bool.not_eq_true] at hc
    rw [remoteStep_noFetch dE pJ fF st e hc] at hw
    exact Or.inl hw

theorem foldl_remote_warnings (dE : String → String → List String)
    (pJ : String → Option JsonVal) (fF : String → FetchOutcome) :
    ∀ (l : List TreeEntry) (st : ScanState),
      ∀ w ∈ (l.foldl (remoteStep dE pJ fF) st).warnings,
        w ∈ st.warnings ∨
          ∃ e ∈ l, w = fetchFailWarning e.path ∧ fF e.path = FetchOutcome.threw := by
  intro l
  induction l with
  | nil =>
    intro st w hw
    exact Or.inl hw
  | cons e rest ih =>
    intro st w hw
    rw [List.foldl_cons] at hw
    rcases ih _ w hw with hw2 | ⟨e2, he2, hrest⟩
    · rcases remoteStep_warnings dE pJ fF st e w hw2 with hw3 | hw3
      · exact Or.inl hw3
      · exact Or.inr ⟨e, List.mem_cons_self e rest, hw3⟩
    · exact Or.inr ⟨e2, List.mem_cons_of_mem e he2, hrest⟩

theorem localInv_init : LocalInv initState :=
  ⟨rfl, Nat.zero_le _, fun p hp => absurd hp (List.not_mem_nil p),
   fun fi hfi => absurd hfi (List.not_mem_nil fi)⟩

theorem remoteInv_init : RemoteInv initState :=
  ⟨rfl, Nat.zero_le _, fun p hp => absurd hp (List.not_mem_nil p),
   fun fi hfi => absurd hfi (List.not_mem_nil fi)⟩

theorem mem_detectFold (pkg : JsonVal) :
    ∀ (tbl : List (String × List String)) (acc : List String) (label : String),
      (label ∈ tbl.foldl
          (fun acc fw =>
            if fw.2.any (fun ind => optTruthy (mergedDep pkg ind)) then addSet acc fw.1
            else acc)
          acc) ↔
        (label ∈ acc ∨ ∃ inds, (label, inds) ∈ tbl ∧
          inds.any (fun ind => optTruthy (mergedDep pkg ind)) = true) := by
  intro tbl
  induction tbl with
  | nil =>
    intro acc label
    simp
  | cons fw tbl ih =>
    intro acc label
    rw [List.foldl_cons, ih]
    by_cases hc : fw.2.any (fun ind => optTruthy (mergedDep pkg ind)) = true
    · rw [if_pos hc, mem_addSet]
      constructor
      · rintro ((h | rfl) | ⟨inds, hm, hc2⟩)
        · exact Or.inl h
        · exact Or.inr ⟨fw.2, by rw [Prod.mk.eta]; exact List.mem_cons_self fw tbl, hc⟩
        · exact Or.inr ⟨inds, List.mem_cons_of_mem fw hm, hc2⟩
      · rintro (h | ⟨inds, hm, hc2⟩)
        · exact Or.inl (Or.inl h)
        · rcases List.mem_cons.mp hm with he | hm2
          · exact Or.inl (Or.inr (by rw [← he]))
          · exact Or.inr ⟨inds, hm2, hc2⟩
    · rw [if_neg hc]
      constructor
      · rintro (h | ⟨inds, hm, hc2⟩)
        · exact Or.inl h
        · exact Or.inr ⟨inds, List.mem_cons_of_mem fw hm, hc2⟩
      · rintro (h | ⟨inds, hm, hc2⟩)
        · exact Or.inl h
        · rcases List.mem_cons.mp hm with he | hm2
          · exfalso
            apply hc
            have h2 : inds = fw.2 := by rw [← he]
            rw [← h2]
            exact hc2
          · exact Or.inr ⟨inds, hm2, hc2⟩

theorem jsSizeTruthyLt_iff (sz : Option Nat) :
    jsSizeTruthyLt sz = true ↔ ∃ n, sz = some n ∧ n ≠ 0 ∧ n < MAX_FILE_SIZE := by
  cases sz with
  | none => simp [jsSizeTruthyLt]
  | some n =>
    by_cases h0 : n = 0
    · subst h0
      simp [jsSizeTruthyLt]
    · simp [jsSizeTruthyLt, h0]

theorem fetchFailWarning_head (p : String) :
    (fetchFailWarning p).data.head? = some 'F' := by
  cases p with
  | mk l => rfl

theorem fileLimitWarning_ne_fetchFail (p : String) :
    fileLimitWarning ≠ fetchFailWarning p := by
  intro h
  have hR : fileLimitWarning.data.head? = some 'R' := rfl
  rw [h, fetchFailWarning_head p] at hR
  injection hR with h3
  exact absurd h3 (by decide)

/-! ### Claim theorems -/

/-- C1: for every scan, local (`scanFiles` over any file list and any
detector/parse oracles) or remote (`processGitHubTree` over any tree and any
oracles), the returned summary satisfies `fileCount = files.length` and
`files.length ≤ MAX_FILES` (100). -/
theorem c1_fileCount_invariant :
    (∀ (dE : String → String → List String) (pJ : String → Option JsonVal)
        (files : List LocalFile),
      (scanFiles dE pJ files).fileCount = (scanFiles dE pJ files).files.length ∧
      (scanFiles dE pJ files).files.length ≤ MAX_FILES) ∧
    (∀ (dE : String → String → List String) (pJ : String → Option JsonVal)
        (fF : String → FetchOutcome) (tree : List TreeEntry),
      (processGitHubTree dE pJ fF tree).fileCount =
        (processGitHubTree dE pJ fF tree).files.length ∧
      (processGitHubTree dE pJ fF tree).files.length ≤ MAX_FILES) := by
  constructor
  · intro dE pJ files
    obtain ⟨hc, hm, _, _⟩ := scanLoop_preserves_inv dE pJ files initState localInv_init
    exact ⟨hc, hc ▸ hm⟩
  · intro dE pJ fF tree
    obtain ⟨hc, hm, _, _⟩ := foldl_remote_inv dE pJ fF (keptEntries tree) initState
      (keptEntries_pathOK tree) remoteInv_init
    exact ⟨hc, hc ▸ Nat.le_trans hm (by decide)⟩

/-- C2 counterexample: scanning the single file "main.TS" stores `type`
".ts" — the lowercased extension WITH its leading dot — while the claim
demands the extension without the dot, "ts". -/
theorem c2_type_counterexample :
    ((scanFiles noDetect noParse [cexFileC2]).files.map (fun fi => fi.path)) =
        ["main.TS"] ∧
    ((scanFiles noDetect noParse [cexFileC2]).files.map (fun fi => fi.type)) =
        [".ts"] ∧
    (".ts" : String) ≠ "ts" := by
  refine ⟨by decide, by decide, by decide⟩

/-- C2 amended: in both scanners, every stored FileRecord's `type` equals a
dot followed by the lowercased substring after the last dot of its path
(`extOf`), and the "unknown" fallback is unreachable. -/
theorem c2_type_amended :
    (∀ (dE : String → String → List String) (pJ : String → Option JsonVal)
        (files : List LocalFile),
      ∀ fi ∈ (scanFiles dE pJ files).files,
        fi.type = extOf fi.path ∧ fi.type ≠ "unknown") ∧
    (∀ (dE : String → String → List String) (pJ : String → Option JsonVal)
        (fF : String → FetchOutcome) (tree : List TreeEntry),
      ∀ fi ∈ (processGitHubTree dE pJ fF tree).files,
        fi.type = extOf fi.path ∧ fi.type ≠ "unknown") := by
  constructor
  · intro dE pJ files fi hfi
    obtain ⟨_, _, _, hf⟩ := scanLoop_preserves_inv dE pJ files initState localInv_init
    obtain ⟨_, hty, _⟩ := hf fi hfi
    exact ⟨hty, by rw [hty]; exact extOf_ne_unknown fi.path⟩
  · intro dE pJ fF tree fi hfi
    obtain ⟨_, _, _, hf⟩ := foldl_remote_inv dE pJ fF (keptEntries tree) initState
      (keptEntries_pathOK tree) remoteInv_init
    obtain ⟨_, hty⟩ := hf fi hfi
    exact ⟨hty, by rw [hty]; exact extOf_ne_unknown fi.path⟩

/-- C2 amended, witness at the concrete scan of "main.TS". -/
theorem c2_type_amended_witness :
    ((⟨"main.TS", "x", ".ts", 5⟩ : FileInfo).type =
        extOf (⟨"main.TS", "x", ".ts", 5⟩ : FileInfo).path) ∧
    (⟨"main.TS", "x", ".ts", 5⟩ : FileInfo).type ≠ "unknown" :=
  c2_type_amended.1 noDetect noParse [cexFileC2] _ (by decide)

/-- C3 counterexample: a file literally named "node_modules" is admitted by
the local scanner into both `structure` and `files`, although its (single,
final) path segment equals an ignored directory name. -/
theorem c3_segment_counterexample :
    (scanFiles noDetect noParse [cexFileC3]).structure_ = ["node_modules"] ∧
    ((scanFiles noDetect noParse [cexFileC3]).files.map (fun fi => fi.path)) =
        ["node_modules"] ∧
    ("node_modules" : String) ∈ segmentsOf "node_modules" ∧
    ("node_modules" : String) ∈ IGNORED_DIRS := by
  refine ⟨by decide, by decide, by decide, by decide⟩

/-- C3 amended: in both scanners, no entry of `structure` (and no path of an
entry of `files`) has a NON-FINAL path segment equal to an ignored directory
name, and no entry ends with an ignored filename; a final segment may equal
an ignored directory name (a file named like a directory). -/
theorem c3_segment_amended :
    (∀ (dE : String → String → List String) (pJ : String → Option JsonVal)
        (files : List LocalFile),
      (∀ p ∈ (scanFiles dE pJ files).structure_,
        (∀ d ∈ IGNORED_DIRS, d ∉ (segmentsOf p).dropLast) ∧
        ∀ f ∈ IGNORED_FILES, strEndsWith p f = false) ∧
      (∀ fi ∈ (scanFiles dE pJ files).files,
        (∀ d ∈ IGNORED_DIRS, d ∉ (segmentsOf fi.path).dropLast) ∧
        ∀ f ∈ IGNORED_FILES, strEndsWith fi.path f = false)) ∧
    (∀ (dE : String → String → List String) (pJ : String → Option JsonVal)
        (fF : String → FetchOutcome) (tree : List TreeEntry),
      (∀ p ∈ (processGitHubTree dE pJ fF tree).structure_,
        (∀ d ∈ IGNORED_DIRS, d ∉ (segmentsOf p).dropLast) ∧
        ∀ f ∈ IGNORED_FILES, strEndsWith p f = false) ∧
      (∀ fi ∈ (processGitHubTree dE pJ fF tree).files,
        (∀ d ∈ IGNORED_DIRS, d ∉ (segmentsOf fi.path).dropLast) ∧
        ∀ f ∈ IGNORED_FILES, strEndsWith fi.path f = false)) := by
  constructor
  · intro dE pJ files
    obtain ⟨_, _, hs, hf⟩ := scanLoop_preserves_inv dE pJ files initState localInv_init
    constructor
    · intro p hp
      have hok := hs p hp
      exact ⟨pathOKLocal_no_dir_segment p hok,
        ignoredFileHit_false_forall p hok.2⟩
    · intro fi hfi
      obtain ⟨hok, _, _⟩ := hf fi hfi
      exact ⟨pathOKLocal_no_dir_segment fi.path hok,
        ignoredFileHit_false_forall fi.path hok.2⟩
  · intro dE pJ fF tree
    obtain ⟨_, _, hs, hf⟩ := foldl_remote_inv dE pJ fF (keptEntries tree) initState
      (keptEntries_pathOK tree) remoteInv_init
    constructor
    · intro p hp
      have hok := hs p hp
      exact ⟨pathOKRemote_no_dir_segment p hok,
        ignoredFileHit_false_forall p hok.2⟩
    · intro fi hfi
      obtain ⟨hok, _⟩ := hf fi hfi
      exact ⟨pathOKRemote_no_dir_segment fi.path hok,
        ignoredFileHit_false_forall fi.path hok.2⟩

/-- C3 amended, witness: the concrete admitted path "main.TS" has no
non-final segment equal to "node_modules". -/
theorem c3_segment_amended_witness :
    ("node_modules" : String) ∉ (segmentsOf "main.TS").dropLast :=
  ((c3_segment_amended.1 noDetect noParse [cexFileC2]).1 "main.TS"
      (by decide)).1 "node_modules" (by decide)

/-- C4 counterexample: 101 non-ignored files, each over the size cap, are
ALL admitted to `structure` (the 101st included) and no file-limit warning
is emitted, because the cap counts content-processed files, which stays 0. -/
theorem c4_limit_counterexample :
    bigInput.length = 101 ∧
    (bigInput.all (fun f => !(ignoredDirHitLocal f.path) && !(ignoredFileHit f.path)))
        = true ∧
    (scanFiles noDetect noParse bigInput).structure_.length = 101 ∧
    (scanFiles noDetect noParse bigInput).warnings.count fileLimitWarning = 0 := by
  refine ⟨by decide, by decide, by decide, by decide⟩

/-- C4 amended: once the scan has content-processed `MAX_FILES` files, the
next non-ignored file (and everything after it) is added to neither
`structure` nor `files`; the loop stops after appending exactly one
file-limit warning. -/
theorem c4_limit_amended (dE : String → String → List String)
    (pJ : String → Option JsonVal) (st : ScanState) (rest : List LocalFile)
    (hcap : MAX_FILES ≤ st.processedCount)
    (hrem : ∃ f ∈ rest, ignoredDirHitLocal f.path = false ∧
        ignoredFileHit f.path = false) :
    scanLoop dE pJ rest st = { st with warnings := st.warnings ++ [fileLimitWarning] } := by
  induction rest with
  | nil => simp at hrem
  | cons f rest ih =>
    cases h1 : ignoredDirHitLocal f.path with
    | false =>
      cases h2 : ignoredFileHit f.path with
      | false =>
        rw [scanLoop_cons_limit dE pJ f rest st h1 h2 hcap]
      | true =>
        rw [scanLoop_cons_ignoredFile dE pJ f rest st h1 h2]
        apply ih
        rcases hrem with ⟨g, hg, hgc⟩
        rcases List.mem_cons.mp hg with rfl | hg2
        · simp [h2] at hgc
        · exact ⟨g, hg2, hgc⟩
    | true =>
      rw [scanLoop_cons_ignoredDir dE pJ f rest st h1]
      apply ih
      rcases hrem with ⟨g, hg, hgc⟩
      rcases List.mem_cons.mp hg with rfl | hg2
      · simp [h1] at hgc
      · exact ⟨g, hg2, hgc⟩

/-- C4 amended, witness: at the cap, one further non-ignored file yields
exactly the one-warning stop. -/
theorem c4_limit_amended_witness :
    scanLoop noDetect noParse [{ path := "a.ts", size := 1, content := Except.ok "x" }]
        stAtCap =
      { stAtCap with warnings := stAtCap.warnings ++ [fileLimitWarning] } :=
  c4_limit_amended noDetect noParse stAtCap _ (by decide)
    ⟨{ path := "a.ts", size := 1, content := Except.ok "x" },
      List.mem_cons_self _ _, by decide, by decide⟩

/-- C5: in every local scan, a non-ignored file of exactly `MAX_FILE_SIZE`
bytes (100 × 1024) is admitted for content read and lands in `files`
(the cap test is strict greater-than), while a file one byte larger is
recorded in `structure` and `totalSize`, never appears in `files` (no stored
file exceeds the cap), and yields exactly one skipped-large-file warning. -/
theorem c5_size_boundary :
    (∀ (dE : String → String → List String) (pJ : String → Option JsonVal)
        (files : List LocalFile),
      ∀ fi ∈ (scanFiles dE pJ files).files, fi.size ≤ MAX_FILE_SIZE) ∧
    (∀ (dE : String → String → List String) (pJ : String → Option JsonVal)
        (st : ScanState) (rest : List LocalFile) (path c : String),
      ignoredDirHitLocal path = false → ignoredFileHit path = false →
      st.processedCount < MAX_FILES →
      ∃ st', scanLoop dE pJ
            ({ path := path, size := MAX_FILE_SIZE, content := Except.ok c } :: rest) st
          = scanLoop dE pJ rest st' ∧
        st'.files = st.files ++
          [{ path := path, content := c, type := typeOf (extOf path),
             size := MAX_FILE_SIZE }] ∧
        st'.processedCount = st.processedCount + 1 ∧
        st'.warnings = st.warnings) ∧
    (∀ (dE : String → String → List String) (pJ : String → Option JsonVal)
        (st : ScanState) (rest : List LocalFile) (path : String)
        (c : Except String String),
      ignoredDirHitLocal path = false → ignoredFileHit path = false →
      st.processedCount < MAX_FILES →
      ∃ st', scanLoop dE pJ
            ({ path := path, size := MAX_FILE_SIZE + 1, content := c } :: rest) st
          = scanLoop dE pJ rest st' ∧
        st'.files = st.files ∧
        st'.processedCount = st.processedCount ∧
        st'.structure_ = st.structure_ ++ [path] ∧
        st'.totalSize = st.totalSize + (MAX_FILE_SIZE + 1) ∧
        st'.warnings = st.warnings ++ [largeFileWarning path (MAX_FILE_SIZE + 1)]) := by
  refine ⟨?_, ?_, ?_⟩
  · intro dE pJ files fi hfi
    obtain ⟨_, _, _, hf⟩ := scanLoop_preserves_inv dE pJ files initState localInv_init
    exact (hf fi hfi).2.2
  · intro dE pJ st rest path c h1 h2 h3
    have h3' : ¬ MAX_FILES ≤ st.processedCount := Nat.not_le.mpr h3
    have h4 : ¬ MAX_FILE_SIZE <
        ({ path := path, size := MAX_FILE_SIZE, content := Except.ok c } : LocalFile).size :=
      Nat.lt_irrefl _
    rw [scanLoop_cons_ok dE pJ _ rest st c h1 h2 h3' h4 rfl]
    exact ⟨_, rfl, rfl, rfl, rfl⟩
  · intro dE pJ st rest path c h1 h2 h3
    have h3' : ¬ MAX_FILES ≤ st.processedCount := Nat.not_le.mpr h3
    have h4 : MAX_FILE_SIZE <
        ({ path := path, size := MAX_FILE_SIZE + 1, content := c } : LocalFile).size :=
      Nat.lt_succ_self _
    rw [scanLoop_cons_large dE pJ _ rest st h1 h2 h3' h4]
    exact ⟨_, rfl, rfl, rfl, rfl, rfl, rfl⟩

/-- C5, witness at the concrete boundary sizes with the empty start state. -/
theorem c5_size_boundary_witness :
    ((⟨"main.TS", "x", ".ts", 5⟩ : FileInfo).size ≤ MAX_FILE_SIZE) ∧
    (∃ st', scanLoop noDetect noParse
          [{ path := "a.ts", size := MAX_FILE_SIZE, content := Except.ok "x" }] initState
        = scanLoop noDetect noParse [] st' ∧
      st'.files = initState.files ++
        [{ path := "a.ts", content := "x", type := typeOf (extOf "a.ts"),
           size := MAX_FILE_SIZE }] ∧
      st'.processedCount = initState.processedCount + 1 ∧
      st'.warnings = initState.warnings) ∧
    (∃ st', scanLoop noDetect noParse
          [{ path := "a.ts", size := MAX_FILE_SIZE + 1, content := Except.ok "x" }]
          initState
        = scanLoop noDetect noParse [] st' ∧
      st'.files = initState.files ∧
      st'.processedCount = initState.processedCount ∧
      st'.structure_ = initState.structure_ ++ ["a.ts"] ∧
      st'.totalSize = initState.totalSize + (MAX_FILE_SIZE + 1) ∧
      st'.warnings = initState.warnings ++
        [largeFileWarning "a.ts" (MAX_FILE_SIZE + 1)]) :=
  ⟨c5_size_boundary.1 noDetect noParse [cexFileC2] _ (by decide),
   c5_size_boundary.2.1 noDetect noParse initState [] "a.ts" "x"
     (by decide) (by decide) (by decide),
   c5_size_boundary.2.2 noDetect noParse initState [] "a.ts" (Except.ok "x")
     (by decide) (by decide) (by decide)⟩

/-- C6 counterexample: on a tree whose first entry is ignored and whose
next 100 entries are kept, the scanner's `structure` holds 100 entries —
truncating the UNFILTERED ordered list to the cap first, as the claim
states, would leave only 99 (`keptEntriesSpecOrder`). -/
theorem c6_truncation_counterexample :
    (processGitHubTree noDetect noParse fetchAllNotOk cexTreeC6).structure_.length
        = 100 ∧
    (keptEntriesSpecOrder cexTreeC6).length = 99 := by
  refine ⟨by decide, by decide⟩

/-- C6 amended: the remote `structure` is exactly the paths of the kept
entries — blobs, filtered by the ignore rules, THEN truncated to the first
`MAX_FILES` of the filtered list — and therefore never exceeds the cap. -/
theorem c6_truncation_amended :
    ∀ (dE : String → String → List String) (pJ : String → Option JsonVal)
        (fF : String → FetchOutcome) (tree : List TreeEntry),
      (processGitHubTree dE pJ fF tree).structure_ =
        (keptEntries tree).map (fun e => e.path) ∧
      (processGitHubTree dE pJ fF tree).structure_.length ≤ MAX_FILES := by
  intro dE pJ fF tree
  have h := foldl_remote_structure dE pJ fF (keptEntries tree) initState
  have h2 : (processGitHubTree dE pJ fF tree).structure_ =
      (keptEntries tree).map (fun e => e.path) := by
    unfold processGitHubTree
    rw [h]
    rfl
  refine ⟨h2, ?_⟩
  rw [h2, List.length_map]
  unfold keptEntries
  rw [List.length_take]
  exact Nat.min_le_left _ _

/-- C7 counterexample: the entry "a.ts" with reported size 0 satisfies every
condition of the claim (important path, size below the cap, fetch counter
below 50), yet even under an all-2xx fetch oracle nothing is fetched or
stored: `file.size` is falsy in the JS conjunction. -/
theorem c7_fetch_condition_counterexample :
    (processGitHubTree noDetect noParse (fetchAllOk "x") [entrySizeZero]).files = [] ∧
    (processGitHubTree noDetect noParse (fetchAllOk "x") [entrySizeZero]).fileCount
        = 0 ∧
    isImportantFile entrySizeZero.path = true ∧
    entrySizeZero.size = some 0 ∧
    (0 : Nat) < MAX_FILE_SIZE ∧ (0 : Nat) < 50 := by
  refine ⟨by decide, by decide, by decide, by decide, by decide, by decide⟩

/-- C7 amended: under an always-2xx fetch oracle, a kept entry's content is
fetched and stored (the processed counter increments) exactly when the path
is important AND the reported size is present, nonzero and below the cap
AND the running counter is below 50. -/
theorem c7_fetch_condition_amended :
    ∀ (dE : String → String → List String) (pJ : String → Option JsonVal)
        (st : ScanState) (e : TreeEntry) (c : String),
      ((remoteStep dE pJ (fun _ => FetchOutcome.ok c) st e).processedCount =
          st.processedCount + 1) ↔
        (isImportantFile e.path = true ∧
         (∃ n, e.size = some n ∧ n ≠ 0 ∧ n < MAX_FILE_SIZE) ∧
         st.processedCount < 50) := by
  intro dE pJ st e c
  by_cases hc : (isImportantFile e.path && jsSizeTruthyLt e.size &&
      decide (st.processedCount < 50)) = true
  · rw [remoteStep_fetch_ok dE pJ _ st e c hc rfl]
    have hc2 := hc
    simp only [Bool.and_eq_true, decide_eq_true_eq] at hc2
    obtain ⟨⟨hi, hs⟩, hcnt⟩ := hc2
    exact ⟨fun _ => ⟨hi, (jsSizeTruthyLt_iff e.size).mp hs, hcnt⟩, fun _ => rfl⟩
  · rw [Bool.not_eq_true] at hc
    rw [remoteStep_noFetch dE pJ _ st e hc]
    constructor
    · intro h
      exact absurd h (by simp)
    · rintro ⟨hi, hsz, hcnt⟩
      exfalso
      have htrue : (isImportantFile e.path && jsSizeTruthyLt e.size &&
          decide (st.processedCount < 50)) = true := by
        rw [hi, (jsSizeTruthyLt_iff e.size).mpr hsz]
        simp [hcnt]
      rw [hc] at htrue
      exact absurd htrue (by simp)

/-- C8 counterexample: a selected entry whose fetch returns a non-2xx
response (without throwing) produces NO warning at all — the claim's
"Failed to fetch" warning appears only when the fetch throws. -/
theorem c8_fetch_warning_counterexample :
    (processGitHubTree noDetect noParse fetchAllNotOk [selEntry]).warnings = [] ∧
    (processGitHubTree noDetect noParse fetchAllNotOk [selEntry]).fileCount = 0 ∧
    isImportantFile selEntry.path = true ∧
    jsSizeTruthyLt selEntry.size = true := by
  refine ⟨by decide, by decide, by decide, by decide⟩

/-- C8 amended: for a selected entry, a THROWN fetch appends exactly the
warning "Failed to fetch <path>" without incrementing the counter or the
stored files; a non-2xx response appends nothing and increments nothing; in
either case the loop simply continues with the next entries. -/
theorem c8_fetch_warning_amended :
    ∀ (dE : String → String → List String) (pJ : String → Option JsonVal)
        (fT fN fF : String → FetchOutcome) (st : ScanState) (e : TreeEntry)
        (rest : List TreeEntry),
      isImportantFile e.path = true → jsSizeTruthyLt e.size = true →
      st.processedCount < 50 →
      (fT e.path = FetchOutcome.threw →
        ((remoteStep dE pJ fT st e).warnings =
            st.warnings ++ [fetchFailWarning e.path] ∧
         (remoteStep dE pJ fT st e).processedCount = st.processedCount ∧
         (remoteStep dE pJ fT st e).files = st.files)) ∧
      (fN e.path = FetchOutcome.notOk →
        ((remoteStep dE pJ fN st e).warnings = st.warnings ∧
         (remoteStep dE pJ fN st e).processedCount = st.processedCount ∧
         (remoteStep dE pJ fN st e).files = st.files)) ∧
      ((e :: rest).foldl (remoteStep dE pJ fF) st =
        rest.foldl (remoteStep dE pJ fF) (remoteStep dE pJ fF st e)) := by
  intro dE pJ fT fN fF st e rest him hsz hcnt
  have hcond : (isImportantFile e.path && jsSizeTruthyLt e.size &&
      decide (st.processedCount < 50)) = true := by
    rw [him, hsz]
    simp [hcnt]
  refine ⟨fun hf => ?_, fun hf => ?_, rfl⟩
  · rw [remoteStep_fetch_threw dE pJ fT st e hcond hf]
    exact ⟨rfl, rfl, rfl⟩
  · rw [remoteStep_fetch_notOk dE pJ fN st e hcond hf]
    exact ⟨rfl, rfl, rfl⟩

/-- C8 amended, witness at the concrete selected entry "a.ts" with the
all-throwing and all-non-2xx oracles. -/
theorem c8_fetch_warning_amended_witness :
    ((remoteStep noDetect noParse fetchAllThrew initState selEntry).warnings =
        initState.warnings ++ [fetchFailWarning selEntry.path] ∧
     (remoteStep noDetect noParse fetchAllThrew initState selEntry).processedCount =
        initState.processedCount ∧
     (remoteStep noDetect noParse fetchAllThrew initState selEntry).files =
        initState.files) ∧
    ((remoteStep noDetect noParse fetchAllNotOk initState selEntry).warnings =
        initState.warnings ∧
     (remoteStep noDetect noParse fetchAllNotOk initState selEntry).processedCount =
        initState.processedCount ∧
     (remoteStep noDetect noParse fetchAllNotOk initState selEntry).files =
        initState.files) ∧
    (([selEntry] : List TreeEntry).foldl (remoteStep noDetect noParse fetchAllThrew)
        initState =
      ([] : List TreeEntry).foldl (remoteStep noDetect noParse fetchAllThrew)
        (remoteStep noDetect noParse fetchAllThrew initState selEntry)) :=
  ⟨(c8_fetch_warning_amended noDetect noParse fetchAllThrew fetchAllNotOk
      fetchAllThrew initState selEntry [] (by decide) (by decide) (by decide)).1 rfl,
   (c8_fetch_warning_amended noDetect noParse fetchAllThrew fetchAllNotOk
      fetchAllThrew initState selEntry [] (by decide) (by decide) (by decide)).2.1 rfl,
   (c8_fetch_warning_amended noDetect noParse fetchAllThrew fetchAllNotOk
      fetchAllThrew initState selEntry [] (by decide) (by decide) (by decide)).2.2⟩

/-- C9 counterexample: a manifest whose dependencies carry the key "react"
with the falsy value "" — the key is present in the merged mapping, yet
detection adds nothing, because the source tests JS truthiness of the
value, not key presence. -/
theorem c9_framework_counterexample :
    detectFrameworks parseCexC9 "pkg" [] = [] ∧
    mergedDep cexPkgC9 "react" = some (JsonVal.str "") ∧
    ("React", ["react", "react-dom", "next", "gatsby"]) ∈ FRAMEWORK_INDICATORS := by
  refine ⟨rfl, rfl, by decide⟩

/-- C9 amended: on parse failure the target set is unchanged and no error
propagates; on success a framework label is in the result exactly when it
was already present or one of its indicator dependency names carries a JS-
truthy value in the merged dependency mapping; the spec's react scenario
yields exactly the set trailed by "React". -/
theorem c9_framework_amended :
    ∀ (parseJson : String → Option JsonVal) (content : String) (fws : List String),
      (parseJson content = none → detectFrameworks parseJson content fws = fws) ∧
      (∀ pkg, parseJson content = some pkg →
        ∀ label, (label ∈ detectFrameworks parseJson content fws ↔
          (label ∈ fws ∨ ∃ inds, (label, inds) ∈ FRAMEWORK_INDICATORS ∧
            inds.any (fun ind => optTruthy (mergedDep pkg ind)) = true))) ∧
      detectFrameworks parseReact "x" [] = ["React"] := by
  intro parseJson content fws
  refine ⟨?_, ?_, by decide⟩
  · intro hnone
    unfold detectFrameworks
    rw [hnone]
  · intro pkg hsome label
    unfold detectFrameworks
    rw [hsome]
    exact mem_detectFold pkg FRAMEWORK_INDICATORS fws label

/-- C9 amended, witness: a failing parse leaves the set unchanged, and in
the react scenario the label "React" is detected via its truthy indicator. -/
theorem c9_framework_amended_witness :
    detectFrameworks noParse "x" ["A"] = ["A"] ∧
    (("React" : String) ∈ detectFrameworks parseReact "x" [] ↔
      (("React" : String) ∈ ([] : List String) ∨
        ∃ inds, (("React" : String), inds) ∈ FRAMEWORK_INDICATORS ∧
          inds.any (fun ind => optTruthy (mergedDep reactPkg ind)) = true)) :=
  ⟨(c9_framework_amended noParse "x" ["A"]).1 rfl,
   (c9_framework_amended parseReact "x" []).2.1 reactPkg rfl "React"⟩

/-- C10: the remote scanner's warnings can only be per-file
"Failed to fetch <path>" strings for kept entries whose fetch threw an
exception; in particular the local scanner's file-limit warning never
appears, so truncation to the cap is never advertised. -/
theorem c10_remote_warnings :
    ∀ (dE : String → String → List String) (pJ : String → Option JsonVal)
        (fF : String → FetchOutcome) (tree : List TreeEntry),
      fileLimitWarning ∉ (processGitHubTree dE pJ fF tree).warnings ∧
      ∀ w ∈ (processGitHubTree dE pJ fF tree).warnings,
        ∃ p, w = fetchFailWarning p ∧ fF p = FetchOutcome.threw ∧
          p ∈ (keptEntries tree).map (fun e => e.path) := by
  intro dE pJ fF tree
  have hchar : ∀ w ∈ (processGitHubTree dE pJ fF tree).warnings,
      ∃ p, w = fetchFailWarning p ∧ fF p = FetchOutcome.threw ∧
        p ∈ (keptEntries tree).map (fun e => e.path) := by
    intro w hw
    have hw2 := foldl_remote_warnings dE pJ fF (keptEntries tree) initState w hw
    rcases hw2 with hw3 | ⟨e, he, hwe, hft⟩
    · exact absurd hw3 (List.not_mem_nil w)
    · exact ⟨e.path, hwe, hft, List.mem_map_of_mem (fun e => e.path) he⟩
  refine ⟨?_, hchar⟩
  intro hmem
  obtain ⟨p, hp, _, _⟩ := hchar fileLimitWarning hmem
  exact absurd hp (fileLimitWarning_ne_fetchFail p)

/-- C10, witness: with an all-throwing oracle over the single kept entry
"a.ts", the produced warning is characterised by the theorem. -/
theorem c10_remote_warnings_witness :
    fileLimitWarning ∉
        (processGitHubTree noDetect noParse fetchAllThrew [selEntry]).warnings ∧
    (∃ p, ("Failed to fetch a.ts" : String) = fetchFailWarning p ∧
      fetchAllThrew p = FetchOutcome.threw ∧
      p ∈ (keptEntries [selEntry]).map (fun e => e.path)) :=
  ⟨(c10_remote_warnings noDetect noParse fetchAllThrew [selEntry]).1,
   (c10_remote_warnings noDetect noParse fetchAllThrew [selEntry]).2
     "Failed to fetch a.ts" (by decide)⟩

end AutofixScan
